import Mathlib

/-!
# Verification of the Chartink-logger scrape/normalize/sync pipeline

Shallow embedding of the repository's Python sources:
* `src/extract.py`  — raw-table filtering (`get_raw_data`),
* `src/transform.py` — header cleaning, year resolution, normalization
  (`clean_header_name`, `calculate_year`, `process_data`),
* `src/load.py`     — the spreadsheet synchronizer (`sync_data`).

Text is modelled as `List Char` (`Str`); a spreadsheet tab is a
`List Row` whose first element is the header row, matching
`ws.get_all_values()`.  Cell writes (`ws.update`, `ws.insert_rows`)
are modelled as whole-row replacement / block insertion, which agrees
with the source whenever written rows are as wide as the rows they
replace (the pipeline always writes full rows produced by
`process_data`).
-/

/-- Python strings, modelled as character lists. -/
abbrev Str := List Char

/-- A spreadsheet / dataframe row: a list of cells. -/
abbrev Row := List Str

/-- A spreadsheet tab as returned by `ws.get_all_values()`: the header
row followed by the data rows. -/
abbrev Sheet := List Row

/-- A pandas dataframe: column names plus data rows. -/
structure Table where
  cols : List Str
  rows : List Row
deriving DecidableEq

/-- Python `str.strip()` (default whitespace stripping, both ends). -/
def pstrip (s : Str) : Str :=
  ((s.dropWhile Char.isWhitespace).reverse.dropWhile Char.isWhitespace).reverse

/-- Python `str.lower()`. -/
def lowerStr (s : Str) : Str := s.map Char.toLower

/-- Python substring test `sub in s`. -/
def hasSub (p : Str) : Str → Bool
  | [] => p.isPrefixOf []
  | c :: t => p.isPrefixOf (c :: t) || hasSub p t

/-- Python `s.split(sep)[0]` for a non-empty separator: the prefix of
`s` before the first occurrence of `sep` (all of `s` if absent). -/
def takeBefore (sep : Str) : Str → Str
  | [] => []
  | c :: rest => if sep.isPrefixOf (c :: rest) then [] else c :: takeBefore sep rest

/-- Python `str.strip(chars)`: remove characters of `set` from both ends. -/
def stripEnds (cs : Str) (s : Str) : Str :=
  ((s.dropWhile cs.contains).reverse.dropWhile cs.contains).reverse

/-- `clean_header_name` from `src/transform.py` (identical to
`clean_header` in `src/main.py`): cut everything from the first
`"_Sort"` marker (else the first `" Sort"` marker), then strip
`'_'`, `' '`, `'.'` from both ends. -/
def clean_header_name (s : Str) : Str :=
  let c := if hasSub "_Sort".data s then takeBefore "_Sort".data s
           else if hasSub " Sort".data s then takeBefore " Sort".data s
           else s
  stripEnds "_ .".data c

/-! ### Elementary facts about the string helpers -/

theorem hasSub_eq_true_iff (p : Str) : ∀ l : Str, hasSub p l = true ↔ p <:+: l := by
  intro l
  induction l with
  | nil =>
    simp [hasSub, List.isPrefixOf_iff_prefix, List.prefix_nil, List.infix_nil]
  | cons c t ih =>
    simp [hasSub, List.isPrefixOf_iff_prefix, ih, List.infix_cons_iff]

theorem hasSub_false_of_contained {p x y : Str} (h : hasSub p x = false)
    (hyx : y <:+: x) : hasSub p y = false := by
  cases hpy : hasSub p y with
  | false => rfl
  | true =>
    exact absurd (hasSub_eq_true_iff p x |>.mpr (((hasSub_eq_true_iff p y).mp hpy).trans hyx))
      (by simp [h])

theorem takeBefore_leading (sep : Str) : ∀ l : Str, takeBefore sep l <+: l := by
  intro l
  induction l with
  | nil => simp [takeBefore]
  | cons c rest ih =>
    by_cases hpre : sep.isPrefixOf (c :: rest)
    · simp [takeBefore, hpre, List.nil_prefix]
    · simpa [takeBefore, hpre, List.cons_prefix_cons] using ih

theorem hasSub_takeBefore {sep : Str} (hsep : sep ≠ []) :
    ∀ l : Str, hasSub sep (takeBefore sep l) = false := by
  have hnil : hasSub sep [] = false := by
    cases sep with
    | nil => exact absurd rfl hsep
    | cons a t => simp [hasSub, List.isPrefixOf]
  intro l
  induction l with
  | nil => simpa [takeBefore] using hnil
  | cons c rest ih =>
    by_cases hpre : sep.isPrefixOf (c :: rest)
    · rw [takeBefore, if_pos hpre]
      exact hnil
    · rw [takeBefore, if_neg hpre]
      have htb : c :: takeBefore sep rest <+: c :: rest := by
        simpa [List.cons_prefix_cons] using takeBefore_leading sep rest
      have hnot : sep.isPrefixOf (c :: takeBefore sep rest) = false := by
        cases hq : sep.isPrefixOf (c :: takeBefore sep rest) with
        | false => rfl
        | true =>
          have hq' := List.isPrefixOf_iff_prefix.mp hq
          have hcr : sep <+: c :: rest := hq'.trans htb
          have hcontra := List.isPrefixOf_iff_prefix.mpr hcr
          exact absurd hcontra (by simp [hpre])
      simp only [hasSub, hnot, ih, Bool.or_self]

theorem dropWhile_dropWhile (p : α → Bool) : ∀ l : List α,
    (l.dropWhile p).dropWhile p = l.dropWhile p := by
  intro l
  induction l with
  | nil => rfl
  | cons c t ih =>
    by_cases hc : p c
    · simpa [List.dropWhile, hc] using ih
    · simp [List.dropWhile, hc]

theorem prefix_head? {l m : List α} (h : l <+: m) (hne : l ≠ []) :
    m.head? = l.head? := by
  obtain ⟨t, ht⟩ := h
  cases l with
  | nil => exact absurd rfl hne
  | cons a l' => simp [← ht]

theorem stripEnds_contained (cs : Str) (s : Str) : stripEnds cs s <:+: s := by
  have h1 : s.dropWhile cs.contains <:+ s := List.dropWhile_suffix _
  have h2 : (s.dropWhile cs.contains).reverse.dropWhile cs.contains <:+
      (s.dropWhile cs.contains).reverse := List.dropWhile_suffix _
  have h3 : stripEnds cs s <+: s.dropWhile cs.contains := by
    have := List.reverse_prefix.mpr h2
    simpa [stripEnds] using this
  exact (h3.isInfix).trans h1.isInfix

theorem stripEnds_idem (cs : Str) (s : Str) :
    stripEnds cs (stripEnds cs s) = stripEnds cs s := by
  set q := cs.contains with hq
  set y := s.dropWhile q with hy
  set z := y.reverse.dropWhile q with hz
  have hstrip : stripEnds cs s = z.reverse := by simp [stripEnds, ← hq, ← hy, ← hz]
  have hzy : z.reverse <+: y := by
    have := List.reverse_prefix.mpr (List.dropWhile_suffix (l := y.reverse) q)
    simpa using this
  have hA : z.reverse.dropWhile q = z.reverse := by
    cases hzr : z.reverse with
    | nil => rfl
    | cons a t =>
      have hhead : y.head? = some a := by
        have := prefix_head? (hzr ▸ hzy) (by simp [hzr])
        simpa [hzr] using this
      have hqa : q a = false := by
        have := List.head?_dropWhile_not q s
        rw [← hy] at this
        simpa [hhead] using this
      simp [List.dropWhile, hqa]
  have hB : z.dropWhile q = z := by
    rw [hz]
    exact dropWhile_dropWhile q y.reverse
  rw [hstrip]
  simp [stripEnds, ← hq, hA, hB]

theorem hasSub_underscore_sort_clean (s : Str) :
    hasSub "_Sort".data (clean_header_name s) = false := by
  have hne : "_Sort".data ≠ [] := by decide
  have hstep : hasSub "_Sort".data
      (if hasSub "_Sort".data s then takeBefore "_Sort".data s
       else if hasSub " Sort".data s then takeBefore " Sort".data s
       else s) = false := by
    by_cases h1 : hasSub "_Sort".data s
    · simp [h1, hasSub_takeBefore hne]
    · by_cases h2 : hasSub " Sort".data s
      · have hpre : takeBefore " Sort".data s <+: s := takeBefore_leading _ s
        simp only [h1, h2, if_true, if_false, Bool.false_eq_true]
        exact hasSub_false_of_contained (by simpa using h1) hpre.isInfix
      · simp [h1, h2]
  exact hasSub_false_of_contained hstep (stripEnds_contained _ _)

/-! ### Claim C7 — header-cleaning idempotence -/

/-- C7 counterexample: `clean_header_name` is **not** idempotent.  For the
column name `"A Sort B_Sort C"` the first pass cuts at the `"_Sort"` marker,
leaving `"A Sort B"`, and a second pass then cuts again at the surviving
`" Sort"` marker, yielding `"A"`. -/
theorem clean_header_name_not_idempotent :
    clean_header_name (clean_header_name "A Sort B_Sort C".data)
      ≠ clean_header_name "A Sort B_Sort C".data := by decide

/-- C7 (amended): cleaning a column name a second time is a no-op whenever
the once-cleaned name no longer contains the `" Sort"` marker (the cleaned
name never contains `"_Sort"`); in particular cleaning `"RSI"` is a no-op
and cleaning `"RSI_Sort_table_by_RSI_desc"` returns `"RSI"`. -/
theorem clean_header_name_idem :
    (∀ s : Str, hasSub " Sort".data (clean_header_name s) = false →
        clean_header_name (clean_header_name s) = clean_header_name s)
    ∧ clean_header_name "RSI".data = "RSI".data
    ∧ clean_header_name "RSI_Sort_table_by_RSI_desc".data = "RSI".data := by
  refine ⟨?_, by decide, by decide⟩
  intro s hsp
  have hund := hasSub_underscore_sort_clean s
  show (let c := if hasSub "_Sort".data (clean_header_name s) then
            takeBefore "_Sort".data (clean_header_name s)
          else if hasSub " Sort".data (clean_header_name s) then
            takeBefore " Sort".data (clean_header_name s)
          else clean_header_name s
        stripEnds "_ .".data c) = clean_header_name s
  rw [show clean_header_name s = stripEnds "_ .".data
        (if hasSub "_Sort".data s then takeBefore "_Sort".data s
         else if hasSub " Sort".data s then takeBefore " Sort".data s
         else s) from rfl] at *
  simp only [hund, hsp, Bool.false_eq_true, if_false]
  exact stripEnds_idem _ _

/-- Witness for the amended C7 at the concrete input `"RSI"`. -/
theorem clean_header_name_idem_witness :
    clean_header_name (clean_header_name "RSI".data) = clean_header_name "RSI".data :=
  clean_header_name_idem.1 "RSI".data (by decide)

/-! ### Date handling (`calculate_year` in `src/transform.py` / `src/main.py`) -/

/-- The two lower-case characters of an English ordinal suffix
(`st`, `nd`, `rd`, `th`), as matched by the regex
`(\d+)(st|nd|rd|th)`. -/
def isOrdSuffix (a b : Char) : Bool :=
  (a = 's' ∧ b = 't') ∨ (a = 'n' ∧ b = 'd') ∨ (a = 'r' ∧ b = 'd') ∨ (a = 't' ∧ b = 'h')

/-- `re.sub(r'(\d+)(st|nd|rd|th)', r'\1', s)`: delete every ordinal
suffix that immediately follows a digit run. -/
def stripOrd : Str → Str
  | [] => []
  | [c] => [c]
  | [c, a] => c :: stripOrd [a]
  | c :: a :: b :: t =>
    if c.isDigit ∧ isOrdSuffix a b then c :: stripOrd t
    else c :: stripOrd (a :: b :: t)

/-- `strptime`'s `%b`: case-insensitive abbreviated English month name. -/
def monthNum (s : Str) : Option Nat :=
  let l := lowerStr s
  if l = "jan".data then some 1 else if l = "feb".data then some 2
  else if l = "mar".data then some 3 else if l = "apr".data then some 4
  else if l = "may".data then some 5 else if l = "jun".data then some 6
  else if l = "jul".data then some 7 else if l = "aug".data then some 8
  else if l = "sep".data then some 9 else if l = "oct".data then some 10
  else if l = "nov".data then some 11 else if l = "dec".data then some 12
  else none

/-- Gregorian leap year, as used by `datetime`. -/
def isLeap (y : Nat) : Bool := (y % 4 = 0 ∧ y % 100 ≠ 0) ∨ y % 400 = 0

/-- Length of a month, as validated by `datetime`. -/
def daysInMonth (y m : Nat) : Nat :=
  if m = 2 then (if isLeap y then 29 else 28)
  else if m = 4 ∨ m = 6 ∨ m = 9 ∨ m = 11 then 30 else 31

/-- Split a string on runs of whitespace (how `strptime` consumes the
whitespace of the format `"%d %b %Y"`). -/
def splitWsAux : Str → Str → List Str
  | [], acc => if acc = [] then [] else [acc.reverse]
  | c :: rest, acc =>
    if c.isWhitespace then
      if acc = [] then splitWsAux rest [] else acc.reverse :: splitWsAux rest []
    else splitWsAux rest (c :: acc)

def splitWs (s : Str) : List Str := splitWsAux s []

/-- Decimal value of a digit string. -/
def natOfDigits (s : Str) : Nat := s.foldl (fun n c => n * 10 + (c.toNat - '0'.toNat)) 0

/-- `datetime.strptime(f"{s} {year}", "%d %b %Y")`, restricted to the
day/month part: expects exactly two tokens, a 1–2 digit day and an
abbreviated month name, and validates the day against the month length
of `year`.  Returns `(day, month)` on success. -/
def parseDM (s : Str) (year : Nat) : Option (Nat × Nat) :=
  match splitWs s with
  | [dTok, mTok] =>
    if dTok ≠ [] ∧ dTok.length ≤ 2 ∧ dTok.all Char.isDigit then
      match monthNum mTok with
      | some m =>
        let d := natOfDigits dTok
        if 1 ≤ d ∧ d ≤ daysInMonth year m then some (d, m) else none
      | none => none
    else none
  | _ => none

/-- A naive `datetime.now()` value. -/
structure PyDate where
  year : Nat
  month : Nat
  day : Nat
deriving DecidableEq

/-- `calculate_year` from `src/transform.py` (identical in
`src/main.py`): strip the input, delete ordinal suffixes, parse the
day + month against the current year; if the **current month is
January** and the **parsed month is December**, return the previous
year, otherwise the current year.  Any parse failure falls back to the
current year. -/
def calculate_year (now : PyDate) (dateVal : Str) : Nat :=
  match parseDM (stripOrd (pstrip dateVal)) now.year with
  | some (_, m) => if now.month = 1 ∧ m = 12 then now.year - 1 else now.year
  | none => now.year

/-- Day count of a (proleptic Gregorian) date, for comparing dates. -/
def daysBeforeYear (y : Nat) : Nat :=
  365 * (y - 1) + (y - 1) / 4 + (y - 1) / 400 - (y - 1) / 100

def daysBeforeMonth (y m : Nat) : Nat :=
  ((List.range (m - 1)).map (fun i => daysInMonth y (i + 1))).sum

def serialDay (y m d : Nat) : Nat := daysBeforeYear y + daysBeforeMonth y m + d

/-- Modelled from the spec: the year-resolution rule the specification
describes — parse day + month against the current year and roll the
year back by one exactly when the resolved date lies **more than ~30
days in the future** relative to now (threshold taken as 30 days; any
threshold between 1 and 160 days yields the same verdicts below). -/
def spec_resolve_year (now : PyDate) (dateVal : Str) : Nat :=
  match parseDM (stripOrd (pstrip dateVal)) now.year with
  | some (d, m) =>
    if serialDay now.year m d > serialDay now.year now.month now.day + 30 then
      now.year - 1
    else now.year
  | none => now.year

/-! ### Claim C6 — year resolution -/

/-- C6 counterexample: the code does **not** implement the "more than
~30 days in the future ⇒ previous year" rule.  With current date
2026-01-05 the string `"15 Jun"` resolves (against the current year) to
2026-06-15, which is 161 days in the future, so the claimed rule demands
the year 2025; `calculate_year` only rolls back when the parsed month is
December, and returns 2026. -/
theorem calculate_year_not_thirty_day_rule :
    calculate_year ⟨2026, 1, 5⟩ "15 Jun".data = 2026
    ∧ spec_resolve_year ⟨2026, 1, 5⟩ "15 Jun".data = 2025
    ∧ serialDay 2026 6 15 = serialDay 2026 1 5 + 161 := by
  refine ⟨by decide, by decide, by decide⟩

/-- C6 (amended): for every day+month string that parses, the resolved
year is the current calendar year, rolled back by one exactly when the
current month is January and the parsed month is December; in
particular, with current date 2026-01-05 the string `"29th Dec"`
resolves to the year 2025, not 2026. -/
theorem calculate_year_january_december_rule :
    (∀ (now : PyDate) (s : Str) (d m : Nat),
        parseDM (stripOrd (pstrip s)) now.year = some (d, m) →
        calculate_year now s =
          if now.month = 1 ∧ m = 12 then now.year - 1 else now.year)
    ∧ calculate_year ⟨2026, 1, 5⟩ "29th Dec".data = 2025 := by
  refine ⟨?_, by decide⟩
  intro now s d m hp
  simp [calculate_year, hp]

/-- Witness for the amended C6 at the concrete input `"29th Dec"`,
current date 2026-01-05. -/
theorem calculate_year_january_december_rule_witness :
    calculate_year ⟨2026, 1, 5⟩ "29th Dec".data =
      if (1 : Nat) = 1 ∧ (12 : Nat) = 12 then 2026 - 1 else 2026 :=
  calculate_year_january_december_rule.1 ⟨2026, 1, 5⟩ "29th Dec".data 29 12 (by decide)

/-! ### Normalization (`process_data` in `src/transform.py`) -/

/-- Python `str(n)` for a nonnegative int. -/
def natToStr (n : Nat) : Str := (Nat.repr n).data

/-- The date-ish tokens `process_data` looks for in the sample value
before adding the `Year` column. -/
def yearTokens : List Str := ["Jan".data, "Feb".data, "Dec".data, "th".data, "st".data]

/-- One iteration of the loop in `process_data` (`src/transform.py`):
clean the headers, stringify the cells (cells are already `Str` in this
embedding), prepend the `Scraped_At_IST` timestamp column, and — when
the first row's original first cell looks like a date — append a
`Year` column computed by `calculate_year` from the original first
cell of each row.  An empty table, or one whose sample cell is
missing, raises inside the `try` in the source and therefore gets no
`Year` column. -/
def process1 (ts : Str) (now : PyDate) (t : Table) : Table :=
  let cols := t.cols.map clean_header_name
  let rows2 := t.rows.map (fun r => ts :: r)
  if rows2 ≠ [] ∧ yearTokens.any (fun x => hasSub x ((rows2.getD 0 []).getD 1 [])) then
    ⟨("Scraped_At_IST".data :: cols) ++ ["Year".data],
     rows2.map (fun r => r ++ [natToStr (calculate_year now (r.getD 1 []))])⟩
  else ⟨"Scraped_At_IST".data :: cols, rows2⟩

/-- `process_data` from `src/transform.py`: the per-table loop, with the
single run-wide timestamp `ts` taken once before the loop. -/
def process_data (ts : Str) (now : PyDate) (dfs : List Table) : List Table :=
  dfs.map (process1 ts now)

/-! ### Claim C10 — normalization preserves rows -/

/-- C10: normalization maps each surviving table through `process1`
(no table added or dropped, all stamped with the one run-wide
timestamp `ts`), and for every table the processed data rows are
exactly the original data rows, in order, each turned into
`ts :: original-row (++ optional Year cell)` — so the number and
relative order of data rows is unchanged, the prepended timestamp cell
is the same string `ts` for every row, and the only other change is an
optional trailing `Year` cell. -/
theorem process_data_row_frame (ts : Str) (now : PyDate) (dfs : List Table) :
    process_data ts now dfs = dfs.map (process1 ts now)
    ∧ ∀ t : Table, ∃ addYear : Bool,
        (process1 ts now t).cols =
          ("Scraped_At_IST".data :: t.cols.map clean_header_name)
            ++ (if addYear then ["Year".data] else [])
        ∧ (process1 ts now t).rows =
            t.rows.map (fun r =>
              ts :: (r ++ (if addYear then
                [natToStr (calculate_year now (r.getD 0 []))] else []))) := by
  refine ⟨rfl, ?_⟩
  intro t
  by_cases hc : t.rows.map (fun r => ts :: r) ≠ [] ∧ yearTokens.any
      (fun x => hasSub x (((t.rows.map (fun r => ts :: r)).getD 0 []).getD 1 [])) = true
  · refine ⟨true, ?_, ?_⟩
    · show (process1 ts now t).cols = _
      rw [process1]
      simp only [if_pos hc, if_true]
    · show (process1 ts now t).rows = _
      rw [process1]
      simp only [if_pos hc, if_true, List.map_map]
      exact List.map_congr_left (fun r _ => rfl)
  · refine ⟨false, ?_, ?_⟩
    · show (process1 ts now t).cols = _
      rw [process1, if_neg hc]
      simp
    · show (process1 ts now t).rows = _
      rw [process1, if_neg hc]
      exact List.map_congr_left (fun r _ => by simp)

/-! ### Raw-table filtering (`get_raw_data` in `src/extract.py`) -/

/-- The keep/skip loop of `get_raw_data` (`src/extract.py`, also the
`continue` guard in `src/main.py`): keep a parsed table iff it has
more than one data row, more than one column, and its first data cell
does not contain `"No data"` (a case-sensitive substring test —
Python's `in`). -/
def get_raw_data_filter (dfs : List Table) : List Table :=
  dfs.foldl (fun acc df =>
    if 1 < df.rows.length ∧ 1 < df.cols.length then
      if hasSub "No data".data ((df.rows.getD 0 []).getD 0 []) then acc
      else acc ++ [df]
    else acc) []

/-- The per-table keep condition implemented by the loop. -/
def codeKeep (df : Table) : Bool :=
  decide (1 < df.rows.length) && decide (1 < df.cols.length)
    && !(hasSub "No data".data ((df.rows.getD 0 []).getD 0 []))

/-! ### Claim C8 — table filtering -/

/-- A 2×2 parsed table whose first data cell is `"no data found"`
(lower-case): the sentinel matches case-insensitively but not
case-sensitively. -/
def noDataLower : Table :=
  ⟨["A".data, "B".data], [["no data found".data, "x".data], ["y".data, "z".data]]⟩

/-- C8 counterexample: the sentinel test is **not** case-insensitive.
The table `noDataLower` has more than one row and column and its first
data cell contains `"No data"` case-insensitively, so the claim says it
is discarded — but `get_raw_data_filter` keeps it, because Python's
`'No data' in ...` test is case-sensitive. -/
theorem table_filter_not_case_insensitive :
    hasSub (lowerStr "No data".data)
        (lowerStr ((noDataLower.rows.getD 0 []).getD 0 [])) = true
    ∧ get_raw_data_filter [noDataLower] = [noDataLower] := by
  refine ⟨by decide, by decide⟩

/-- C8 (amended): a parsed table is kept by the extraction filter iff it
has more than one data row, more than one column, and its first data
cell does not contain the sentinel `"No data"` as a **case-sensitive**
substring; all other tables are discarded, and the kept tables appear
in their original order. -/
theorem get_raw_data_filter_spec (dfs : List Table) :
    get_raw_data_filter dfs = dfs.filter codeKeep := by
  have aux : ∀ (l : List Table) (acc : List Table),
      l.foldl (fun acc df =>
        if 1 < df.rows.length ∧ 1 < df.cols.length then
          if hasSub "No data".data ((df.rows.getD 0 []).getD 0 []) then acc
          else acc ++ [df]
        else acc) acc = acc ++ l.filter codeKeep := by
    intro l
    induction l with
    | nil => intro acc; simp
    | cons df rest ih =>
      intro acc
      simp only [List.foldl_cons]
      by_cases h1 : 1 < df.rows.length ∧ 1 < df.cols.length
      · by_cases h2 : hasSub "No data".data ((df.rows.getD 0 []).getD 0 []) = true
        · have hk : codeKeep df = false := by
            unfold codeKeep
            rw [h2]
            simp
          rw [if_pos h1, if_pos h2, ih, List.filter_cons, hk]
          simp
        · have h2' : hasSub "No data".data ((df.rows.getD 0 []).getD 0 []) = false := by
            simpa using h2
          have hk : codeKeep df = true := by
            unfold codeKeep
            rw [h2']
            simp [h1.1, h1.2]
          rw [if_pos h1, if_neg h2, ih, List.filter_cons, hk]
          simp
      · have hk : codeKeep df = false := by
          rcases not_and_or.mp h1 with h | h <;> simp [codeKeep, h]
        rw [if_neg h1, ih, List.filter_cons, hk]
        simp
  simpa [get_raw_data_filter] using aux dfs []

/-! ### The synchronizer (`sync_data` in `src/load.py`) -/

/-- The key of a row: `str(row[1]).strip()` — the trimmed cell at
index 1 (just after the timestamp column). -/
def rowKey (r : Row) : Str := pstrip (r.getD 1 [])

/-- The `existing_map` lookup of the History branch: scanning
`all_values` once, skipping the header (index 0) and rows with fewer
than two cells, the Python dict maps each key to `idx + 1`, so a later
matching row overwrites an earlier one — the lookup returns the
**last** matching 1-based sheet row number. -/
def existingIdx (v : Sheet) (k : Str) : Option Nat :=
  (((List.range v.length).filter (fun i =>
      decide (i ≠ 0) && decide (1 < (v.getD i []).length)
        && decide (rowKey (v.getD i []) = k))).getLast?).map (· + 1)

/-- The per-row loop of the History branch (`src/load.py` lines
121–134).  `v` is the one-time `ws.get_all_values()` snapshot: both the
key lookup and the change comparison read this snapshot, while in-place
updates are applied immediately to the live sheet `cur`. -/
def historyLoop (v : Sheet) : Sheet → List Row → List Row → Sheet × List Row
  | cur, toIns, [] => (cur, toIns)
  | cur, toIns, r :: rest =>
    match existingIdx v (rowKey r) with
    | some ridx =>
      if (v.getD (ridx - 1) []).drop 1 ≠ r.drop 1 then
        historyLoop v (cur.set (ridx - 1) r) toIns rest
      else historyLoop v cur toIns rest
    | none => historyLoop v cur (toIns ++ [r]) rest

/-- The History branch of `sync_data`: run the per-row loop, then
insert the queued new rows as one block at sheet row 2 (just below the
header), pushing the existing data rows down. -/
def syncHistory (v : Sheet) (rows : List Row) : Sheet :=
  let p := historyLoop v v [] rows
  if p.2 = [] then p.1 else p.1.take 1 ++ p.2 ++ p.1.drop 1

/-- The Scanner branch of `sync_data` (`src/load.py` lines 141–158):
compare the incoming key column, as an ordered list of trimmed
strings, against the key column of the top `len(df)` persisted data
rows (rows shorter than two cells are skipped); insert the whole
incoming block at the top exactly when the two sequences differ. -/
def syncScanner (v : Sheet) (rows : List Row) : Sheet :=
  if rows.map rowKey ≠
      ((((v.drop 1).take rows.length).filter (fun r => 1 < r.length)).map rowKey) then
    v.take 1 ++ rows ++ v.drop 1
  else v

/-- Table-kind detection of `sync_data`: History iff the second column
name contains `date` or `day` (case-insensitive). -/
def isHistoryTable (cols : List Str) : Bool :=
  hasSub "date".data (lowerStr (cols.getD 1 []))
    || hasSub "day".data (lowerStr (cols.getD 1 []))

/-- `ws.update('A1', [headers])`: force the header row. -/
def writeHeader (v : Sheet) (h : List Str) : Sheet := h :: v.drop 1

/-- One iteration of the `sync_data` loop for one worksheet `v` and one
cleaned dataframe `df`: force the header, then run the History or the
Scanner merge. -/
def syncTable (v : Sheet) (df : Table) : Sheet :=
  let v1 := writeHeader v df.cols
  if isHistoryTable df.cols then syncHistory v1 df.rows else syncScanner v1 df.rows

section ScratchSync
example : existingIdx [["H".data], ["t0".data, "K".data, "70".data]] "K".data
    = some 2 := by decide
example : syncHistory [["H".data], ["t0".data, "K".data, "70".data]]
      [["t1".data, "K".data, "75".data]]
    = [["H".data], ["t1".data, "K".data, "75".data]] := by decide
example : syncHistory [["H".data], ["t0".data, "K".data, "70".data]]
      [["t1".data, "D".data, "75".data]]
    = [["H".data], ["t1".data, "D".data, "75".data], ["t0".data, "K".data, "70".data]] := by
  decide
example : syncHistory [["H".data], ["t0".data, "K".data, "70".data]]
      [["t1".data, "K".data, "75".data], ["t2".data, "K".data, "70".data]]
    = [["H".data], ["t1".data, "K".data, "75".data]] := by decide
end ScratchSync

/-! ### Facts about `existingIdx` and the history loop -/

theorem mem_of_getLast?_eq {l : List α} {a : α} :
    l.getLast? = some a → a ∈ l := by
  induction l with
  | nil => intro h; cases h
  | cons b t ih =>
    intro h
    cases t with
    | nil =>
      simp only [List.getLast?_singleton, Option.some_inj] at h
      simp [h]
    | cons c m =>
      rw [List.getLast?_cons_cons] at h
      exact List.mem_cons_of_mem b (ih h)

theorem getLast?_eq_of_all_eq {l : List α} {a : α}
    (hall : ∀ x ∈ l, x = a) (hmem : a ∈ l) : l.getLast? = some a := by
  induction l with
  | nil => cases hmem
  | cons b t ih =>
    cases t with
    | nil =>
      simp [hall b (by simp)]
    | cons c m =>
      rw [List.getLast?_cons_cons]
      exact ih (fun x hx => hall x (List.mem_cons_of_mem b hx))
        (by rw [← hall c (by simp)]; simp)

theorem getLast?_cons_or (a : α) (l : List α) :
    (a :: l).getLast? = l.getLast?.or (some a) := by
  rw [List.getLast?_cons]
  cases l.getLast? <;> rfl

/-- Structural facts extracted from a successful `existing_map` lookup:
the hit is a data row (sheet row ≥ 2) inside the snapshot, it has more
than one cell, and its trimmed key cell equals the key looked up. -/
theorem existingIdx_facts {v : Sheet} {k : Str} {ridx : Nat}
    (h : existingIdx v k = some ridx) :
    2 ≤ ridx ∧ ridx - 1 < v.length
      ∧ 1 < (v.getD (ridx - 1) []).length
      ∧ rowKey (v.getD (ridx - 1) []) = k := by
  unfold existingIdx at h
  rw [Option.map_eq_some'] at h
  obtain ⟨i, hi, hridx⟩ := h
  have hmem := mem_of_getLast?_eq hi
  rw [List.mem_filter] at hmem
  obtain ⟨hrange, hpred⟩ := hmem
  have hlt : i < v.length := List.mem_range.mp hrange
  simp only [Bool.and_eq_true, decide_eq_true_eq] at hpred
  obtain ⟨⟨hne, hlen⟩, hkey⟩ := hpred
  subst hridx
  refine ⟨by omega, by simpa using hlt, by simpa using hlen, by simpa using hkey⟩

/-- A successful lookup never points at the header row. -/
theorem existingIdx_ne_one {v : Sheet} {k : Str} {ridx : Nat}
    (h : existingIdx v k = some ridx) : ridx ≠ 1 := by
  have := (existingIdx_facts h).1
  omega

/-- Does processing incoming row `r` issue an in-place update of the
0-based snapshot position `j`?  (Lookup hits sheet row `j + 1` and the
non-timestamp fields differ from the snapshot.) -/
def touches (v : Sheet) (j : Nat) (r : Row) : Bool :=
  decide (existingIdx v (rowKey r) = some (j + 1))
    && decide ((v.getD j []).drop 1 ≠ r.drop 1)

/-- Invariant of the History per-row loop: the insert queue collects, in
order, exactly the incoming rows whose key is not in the snapshot map,
and each position of the live sheet holds the **last** incoming row that
updated it, else its previous content.  Lookups and comparisons read
the one-time snapshot `v` throughout. -/
theorem historyLoop_spec (v : Sheet) :
    ∀ (rows : List Row) (cur : Sheet) (toIns : List Row),
      cur.length = v.length →
      (historyLoop v cur toIns rows).1.length = v.length
      ∧ (historyLoop v cur toIns rows).2 =
          toIns ++ rows.filter (fun r => (existingIdx v (rowKey r)).isNone)
      ∧ ∀ j, (historyLoop v cur toIns rows).1[j]? =
          ((rows.filter (touches v j)).getLast?).or cur[j]? := by
  intro rows
  induction rows with
  | nil =>
    intro cur toIns hlen
    refine ⟨hlen, by simp [historyLoop], ?_⟩
    intro j
    simp [historyLoop, Option.none_or]
  | cons r rest ih =>
    intro cur toIns hlen
    cases hE : existingIdx v (rowKey r) with
    | none =>
      have hloop : historyLoop v cur toIns (r :: rest)
          = historyLoop v cur (toIns ++ [r]) rest := by
        simp [historyLoop, hE]
      obtain ⟨ih1, ih2, ih3⟩ := ih cur (toIns ++ [r]) hlen
      refine ⟨hloop ▸ ih1, ?_, ?_⟩
      · rw [hloop, ih2, List.filter_cons]
        simp [hE]
      · intro j
        have htj : touches v j r = false := by
          simp [touches, hE]
        rw [hloop, ih3 j, List.filter_cons, htj]
        simp
    | some ridx =>
      have hfacts := existingIdx_facts hE
      by_cases hd : (v.getD (ridx - 1) []).drop 1 ≠ r.drop 1
      · have hloop : historyLoop v cur toIns (r :: rest)
            = historyLoop v (cur.set (ridx - 1) r) toIns rest := by
          simp only [historyLoop, hE]
          rw [if_pos hd]
        have hlen' : (cur.set (ridx - 1) r).length = v.length := by
          simp [hlen]
        obtain ⟨ih1, ih2, ih3⟩ := ih (cur.set (ridx - 1) r) toIns hlen'
        refine ⟨hloop ▸ ih1, ?_, ?_⟩
        · rw [hloop, ih2, List.filter_cons]
          simp [hE]
        · intro j
          by_cases hj : j = ridx - 1
          · subst hj
            have htj : touches v (ridx - 1) r = true := by
              have harith : ridx - 1 + 1 = ridx := by omega
              have h1 : decide (existingIdx v (rowKey r) = some (ridx - 1 + 1)) = true := by
                rw [harith]
                exact decide_eq_true hE
              have h2 : decide ((v.getD (ridx - 1) []).drop 1 ≠ r.drop 1) = true :=
                decide_eq_true hd
              unfold touches
              rw [h1, h2]
              rfl
            rw [hloop, ih3 (ridx - 1), List.filter_cons, htj]
            have hset : (cur.set (ridx - 1) r)[ridx - 1]? = some r :=
              List.getElem?_set_self (by omega)
            rw [if_pos rfl, getLast?_cons_or, Option.or_assoc, hset]
            rfl
          · have htj : touches v j r = false := by
              have : ¬(existingIdx v (rowKey r) = some (j + 1)) := by
                rw [hE]
                intro hcontra
                have : ridx = j + 1 := by injection hcontra
                omega
              simp [touches, this]
            have hset : (cur.set (ridx - 1) r)[j]? = cur[j]? :=
              List.getElem?_set_ne (by omega)
            rw [hloop, ih3 j, List.filter_cons, htj, if_neg (by simp), hset]
      · have hloop : historyLoop v cur toIns (r :: rest)
            = historyLoop v cur toIns rest := by
          simp only [historyLoop, hE]
          rw [if_neg hd]
        obtain ⟨ih1, ih2, ih3⟩ := ih cur toIns hlen
        refine ⟨hloop ▸ ih1, ?_, ?_⟩
        · rw [hloop, ih2, List.filter_cons]
          simp [hE]
        · intro j
          have htj : touches v j r = false := by
            by_cases hj : j = ridx - 1
            · subst hj
              have h2 : decide ((v.getD (ridx - 1) []).drop 1 ≠ r.drop 1) = false :=
                decide_eq_false hd
              unfold touches
              rw [h2]
              simp
            · have h1 : decide (existingIdx v (rowKey r) = some (j + 1)) = false := by
                apply decide_eq_false
                rw [hE]
                intro hcontra
                have : ridx = j + 1 := by injection hcontra
                omega
              unfold touches
              rw [h1]
              simp
          rw [hloop, ih3 j, List.filter_cons, htj, if_neg (by simp)]

/-- `syncHistory` always has the shape
`live.take 1 ++ queued-inserts ++ live.drop 1`. -/
theorem syncHistory_shape (v : Sheet) (rows : List Row) :
    syncHistory v rows =
      (historyLoop v v [] rows).1.take 1 ++ (historyLoop v v [] rows).2
        ++ (historyLoop v v [] rows).1.drop 1 := by
  unfold syncHistory
  by_cases h : (historyLoop v v [] rows).2 = []
  · rw [if_pos h, h, List.append_nil]
    exact (List.take_append_drop 1 _).symm
  · rw [if_neg h]

/-! ### Claim C3 — History no-op on identical row -/

/-- C3: syncing an incoming row whose key is already persisted and whose
non-timestamp fields (compared as strings) are identical to the
persisted row's fields mutates nothing: no update is issued and no row
is inserted.  This is exactly the state of the second call after any
first sync persisted the row, so the second call performs zero
mutations. -/
theorem history_identical_row_is_noop (v : Sheet) (r : Row) (ridx : Nat)
    (hk : existingIdx v (rowKey r) = some ridx)
    (heq : (v.getD (ridx - 1) []).drop 1 = r.drop 1) :
    syncHistory v [r] = v := by
  have hne : ¬((v.getD (ridx - 1) []).drop 1 ≠ r.drop 1) := by simpa using heq
  unfold syncHistory
  simp only [historyLoop, hk]
  rw [if_neg hne]
  simp [historyLoop]

/-- Witness for C3: the persisted row for key `"K"` already holds the
incoming non-timestamp fields, so the sync returns the sheet
unchanged. -/
theorem history_identical_row_is_noop_witness :
    syncHistory [["H".data], ["t0".data, "K".data, "70".data]]
        [["t1".data, "K".data, "70".data]]
      = [["H".data], ["t0".data, "K".data, "70".data]] :=
  history_identical_row_is_noop _ _ 2 (by decide) (by decide)

/-! ### Claim C1 — History upsert updates in place -/

/-- C1: during a History sync, an incoming row `r` whose trimmed key
matches a persisted data row (snapshot sheet row `ridx`) and whose
non-timestamp fields differ from it is written over that row at its
original position — in the final sheet the row sits at that same
position, only shifted down by the block of genuinely new rows inserted
above it — the sheet grows by exactly the new-key rows, and no inserted
row carries `r`'s key.  The uniqueness hypothesis `huniq` is the
upstream invariant that incoming keys are unique within one batch (the
duplicate-key case is treated separately). -/
theorem history_upsert_in_place (v : Sheet) (rows : List Row) (r : Row) (ridx : Nat)
    (hr : r ∈ rows)
    (huniq : ∀ r' ∈ rows, rowKey r' = rowKey r → r' = r)
    (hk : existingIdx v (rowKey r) = some ridx)
    (hd : (v.getD (ridx - 1) []).drop 1 ≠ r.drop 1) :
    (syncHistory v rows)[(rows.filter
        (fun r' => (existingIdx v (rowKey r')).isNone)).length + (ridx - 1)]? = some r
    ∧ (syncHistory v rows).length
        = v.length + (rows.filter (fun r' => (existingIdx v (rowKey r')).isNone)).length
    ∧ ∀ r' ∈ rows.filter (fun r' => (existingIdx v (rowKey r')).isNone),
        rowKey r' ≠ rowKey r := by
  obtain ⟨h2, hlt, _, hkeyv⟩ := existingIdx_facts hk
  obtain ⟨hL1, hL2, hL3⟩ := historyLoop_spec v rows v [] rfl
  have hins_eq : (historyLoop v v [] rows).2
      = rows.filter (fun r' => (existingIdx v (rowKey r')).isNone) := by
    simpa using hL2
  have harith : ridx - 1 + 1 = ridx := by omega
  have hcf_at : (historyLoop v v [] rows).1[ridx - 1]? = some r := by
    have hfilter_all : ∀ x ∈ rows.filter (touches v (ridx - 1)), x = r := by
      intro x hx
      rw [List.mem_filter] at hx
      obtain ⟨hxrows, hxt⟩ := hx
      unfold touches at hxt
      rw [Bool.and_eq_true, decide_eq_true_eq, decide_eq_true_eq] at hxt
      obtain ⟨hx1, _⟩ := hxt
      rw [harith] at hx1
      have hkeyx := (existingIdx_facts hx1).2.2.2
      exact huniq x hxrows (by rw [← hkeyx, hkeyv])
    have hr_in : r ∈ rows.filter (touches v (ridx - 1)) := by
      rw [List.mem_filter]
      refine ⟨hr, ?_⟩
      unfold touches
      rw [Bool.and_eq_true, decide_eq_true_eq, decide_eq_true_eq]
      exact ⟨by rw [harith]; exact hk, hd⟩
    rw [hL3 (ridx - 1), getLast?_eq_of_all_eq hfilter_all hr_in]
    rfl
  have hcf_len : (historyLoop v v [] rows).1.length = v.length := hL1
  have htake1 : ((historyLoop v v [] rows).1.take 1).length = 1 := by
    rw [List.length_take]
    omega
  have hpref : ((historyLoop v v [] rows).1.take 1 ++ (historyLoop v v [] rows).2).length
      = 1 + (rows.filter (fun r' => (existingIdx v (rowKey r')).isNone)).length := by
    rw [List.length_append, htake1, hins_eq]
  refine ⟨?_, ?_, ?_⟩
  · rw [syncHistory_shape,
      List.getElem?_append_right (by rw [hpref]; omega), hpref, List.getElem?_drop]
    have : 1 + ((rows.filter (fun r' => (existingIdx v (rowKey r')).isNone)).length
        + (ridx - 1)
        - (1 + (rows.filter (fun r' => (existingIdx v (rowKey r')).isNone)).length))
        = ridx - 1 := by omega
    rw [this, hcf_at]
  · rw [syncHistory_shape, List.length_append, hpref, List.length_drop, hcf_len]
    omega
  · intro r' hr'
    rw [List.mem_filter] at hr'
    obtain ⟨_, hnone⟩ := hr'
    rw [Option.isNone_iff_eq_none] at hnone
    intro hkeq
    rw [hkeq, hk] at hnone
    cases hnone

/-- Witness for C1: key `"K"` is persisted at sheet row 2 with value 70,
the incoming batch carries 75 for the same key; the persisted row is
overwritten in place and nothing is inserted. -/
theorem history_upsert_in_place_witness :
    (syncHistory [["H".data], ["t0".data, "K".data, "70".data]]
        [["t1".data, "K".data, "75".data]])[(([["t1".data, "K".data, "75".data]] : List Row).filter
          (fun r' => (existingIdx [["H".data], ["t0".data, "K".data, "70".data]] (rowKey r')).isNone)).length
        + (2 - 1)]? = some ["t1".data, "K".data, "75".data]
    ∧ (syncHistory [["H".data], ["t0".data, "K".data, "70".data]]
        [["t1".data, "K".data, "75".data]]).length
      = ([["H".data], ["t0".data, "K".data, "70".data]] : Sheet).length
        + (([["t1".data, "K".data, "75".data]] : List Row).filter
            (fun r' => (existingIdx [["H".data], ["t0".data, "K".data, "70".data]] (rowKey r')).isNone)).length
    ∧ ∀ r' ∈ ([["t1".data, "K".data, "75".data]] : List Row).filter
          (fun r' => (existingIdx [["H".data], ["t0".data, "K".data, "70".data]] (rowKey r')).isNone),
        rowKey r' ≠ rowKey ["t1".data, "K".data, "75".data] :=
  history_upsert_in_place _ _ _ 2 (by decide) (by decide) (by decide) (by decide)

/-! ### Claim C5 — duplicate keys in one incoming batch -/

/-- C5 counterexample: "the last one processed wins" is false.  The
sheet holds `K ↦ 70`; the batch carries two rows for `K`, first with
75, last with 70.  Each duplicate is compared against the **snapshot**
read at the start of the sync, so the first row (75 ≠ 70) updates the
sheet, while the last row (70 = 70) is judged unchanged and writes
nothing — the persisted state ends with the *first* row's field set,
not the last's. -/
theorem history_duplicate_last_does_not_win :
    syncHistory [["H".data], ["t0".data, "K".data, "70".data]]
        [["t1".data, "K".data, "75".data], ["t2".data, "K".data, "70".data]]
      = [["H".data], ["t1".data, "K".data, "75".data]]
    ∧ (["t1".data, "K".data, "75".data] : Row).drop 1
        ≠ (["t2".data, "K".data, "70".data] : Row).drop 1 := by
  refine ⟨by decide, by decide⟩

/-- C5 (amended): when every row of the incoming batch carries the same
already-persisted key, each duplicate is compared against the snapshot
row read at the start of the sync; the **last row whose fields differ
from that snapshot row** wins the in-place update (the sheet is
unchanged when none differs), and no row is inserted for the key. -/
theorem history_duplicate_key_rule (v : Sheet) (rows : List Row) (k : Str) (ridx : Nat)
    (hall : ∀ r ∈ rows, rowKey r = k)
    (hk : existingIdx v k = some ridx) :
    syncHistory v rows =
      match (rows.filter
          (fun r => decide ((v.getD (ridx - 1) []).drop 1 ≠ r.drop 1))).getLast? with
      | some r => v.set (ridx - 1) r
      | none => v := by
  obtain ⟨h2, hlt, _, _⟩ := existingIdx_facts hk
  obtain ⟨hL1, hL2, hL3⟩ := historyLoop_spec v rows v [] rfl
  have hins : (historyLoop v v [] rows).2 = [] := by
    rw [hL2, List.nil_append, List.filter_eq_nil_iff]
    intro a ha
    rw [hall a ha, hk]
    simp
  have hsync : syncHistory v rows = (historyLoop v v [] rows).1 := by
    unfold syncHistory
    rw [if_pos hins]
  have harith : ridx - 1 + 1 = ridx := by omega
  have hcong : rows.filter (touches v (ridx - 1)) =
      rows.filter (fun r => decide ((v.getD (ridx - 1) []).drop 1 ≠ r.drop 1)) := by
    apply List.filter_congr
    intro x hx
    unfold touches
    have h1 : decide (existingIdx v (rowKey x) = some (ridx - 1 + 1)) = true := by
      rw [harith, hall x hx]
      exact decide_eq_true hk
    rw [h1, Bool.true_and]
  have hother : ∀ j, j ≠ ridx - 1 → rows.filter (touches v j) = [] := by
    intro j hj
    rw [List.filter_eq_nil_iff]
    intro a ha
    unfold touches
    simp only [Bool.and_eq_true, decide_eq_true_eq, not_and]
    intro hcontra
    rw [hall a ha, hk] at hcontra
    have : ridx = j + 1 := by injection hcontra
    omega
  cases hlast : (rows.filter
      (fun r => decide ((v.getD (ridx - 1) []).drop 1 ≠ r.drop 1))).getLast? with
  | some r =>
    rw [hsync]
    apply List.ext_getElem?
    intro j
    by_cases hj : j = ridx - 1
    · subst hj
      rw [hL3, hcong, hlast, List.getElem?_set_self (by omega)]
      rfl
    · rw [hL3, hother j hj, List.getElem?_set_ne (by omega)]
      simp
  | none =>
    rw [hsync]
    apply List.ext_getElem?
    intro j
    by_cases hj : j = ridx - 1
    · subst hj
      rw [hL3, hcong, hlast]
      simp
    · rw [hL3, hother j hj]
      simp

/-- Witness for the amended C5 at the counterexample batch: the last
*differing* duplicate (75) wins the update. -/
theorem history_duplicate_key_rule_witness :
    syncHistory [["H".data], ["t0".data, "K".data, "70".data]]
        [["t1".data, "K".data, "75".data], ["t2".data, "K".data, "70".data]]
      = match (([["t1".data, "K".data, "75".data], ["t2".data, "K".data, "70".data]] : List Row).filter
          (fun r => decide ((([["H".data], ["t0".data, "K".data, "70".data]] : Sheet).getD (2 - 1) []).drop 1
            ≠ r.drop 1))).getLast? with
        | some r => ([["H".data], ["t0".data, "K".data, "70".data]] : Sheet).set (2 - 1) r
        | none => [["H".data], ["t0".data, "K".data, "70".data]] :=
  history_duplicate_key_rule _ _ "K".data 2 (by decide) (by decide)

/-! ### Claim C4 — sync never deletes persisted rows -/

/-- C4: for either table kind, one `sync_data` iteration turns the sheet
into `header :: (inserted-block ++ updated-data)` where the updated data
region has exactly the original number of data rows, in their original
relative order: each position holds either its original row (rows not
targeted by an in-place update keep their values) or the full field set
of some incoming row (an in-place update); insertion happens only as a
block at the top, pushing the original rows down.  No persisted data
row is ever deleted. -/
theorem sync_data_never_deletes (vals : Sheet) (df : Table) :
    ∃ ins updated : List Row,
      syncTable vals df = df.cols :: (ins ++ updated)
      ∧ updated.length = (vals.drop 1).length
      ∧ ∀ j : Nat, updated[j]? = (vals.drop 1)[j]?
          ∨ ∃ r, r ∈ df.rows ∧ updated[j]? = some r := by
  by_cases hkind : isHistoryTable df.cols = true
  · have hsync : syncTable vals df = syncHistory (df.cols :: vals.drop 1) df.rows := by
      simp only [syncTable, writeHeader]
      rw [if_pos hkind]
    obtain ⟨hL1, hL2, hL3⟩ :=
      historyLoop_spec (df.cols :: vals.drop 1) df.rows (df.cols :: vals.drop 1) [] rfl
    have hcf0 : (historyLoop (df.cols :: vals.drop 1) (df.cols :: vals.drop 1) [] df.rows).1[0]?
        = some df.cols := by
      rw [hL3 0]
      have hempty : df.rows.filter (touches (df.cols :: vals.drop 1) 0) = [] := by
        rw [List.filter_eq_nil_iff]
        intro a ha
        unfold touches
        simp only [Bool.and_eq_true, decide_eq_true_eq, not_and]
        intro h1
        have := (existingIdx_facts h1).1
        omega
      rw [hempty]
      simp
    obtain ⟨tl, htl⟩ : ∃ tl,
        (historyLoop (df.cols :: vals.drop 1) (df.cols :: vals.drop 1) [] df.rows).1
          = df.cols :: tl := by
      cases hc : (historyLoop (df.cols :: vals.drop 1) (df.cols :: vals.drop 1) [] df.rows).1 with
      | nil => rw [hc] at hcf0; cases hcf0
      | cons h t =>
        rw [hc] at hcf0
        rw [List.getElem?_cons_zero, Option.some_inj] at hcf0
        exact ⟨t, by rw [hcf0]⟩
    refine ⟨(historyLoop (df.cols :: vals.drop 1) (df.cols :: vals.drop 1) [] df.rows).2,
      tl, ?_, ?_, ?_⟩
    · rw [hsync, syncHistory_shape, htl]
      simp
    · have := hL1
      rw [htl] at this
      simpa using this
    · intro j
      have hstep : tl[j]?
          = (historyLoop (df.cols :: vals.drop 1) (df.cols :: vals.drop 1) [] df.rows).1[j + 1]? := by
        rw [htl, List.getElem?_cons_succ]
      rw [hstep, hL3 (j + 1)]
      cases hlast : (df.rows.filter (touches (df.cols :: vals.drop 1) (j + 1))).getLast? with
      | some r =>
        right
        exact ⟨r, List.mem_of_mem_filter (mem_of_getLast?_eq hlast), rfl⟩
      | none =>
        left
        rw [Option.none_or, List.getElem?_cons_succ]
  · have hsync : syncTable vals df = syncScanner (df.cols :: vals.drop 1) df.rows := by
      simp only [syncTable, writeHeader]
      rw [if_neg hkind]
    by_cases hcond : df.rows.map rowKey ≠
        ((((df.cols :: vals.drop 1).drop 1).take df.rows.length).filter
          (fun r => 1 < r.length)).map rowKey
    · refine ⟨df.rows, vals.drop 1, ?_, rfl, fun j => Or.inl rfl⟩
      rw [hsync]
      unfold syncScanner
      rw [if_pos hcond]
      simp
    · refine ⟨[], vals.drop 1, ?_, rfl, fun j => Or.inl rfl⟩
      rw [hsync]
      unfold syncScanner
      rw [if_neg hcond]
      simp

/-! ### Claim C2 — Scanner sync idempotence -/

/-- After the incoming block has been inserted at the top, re-running the
Scanner comparison reads back exactly the incoming rows and is a
no-op. -/
theorem syncScanner_inserted_noop (rows : List Row)
    (hw : ∀ r ∈ rows, 1 < r.length) (hdr : Row) (rest : List Row) :
    syncScanner (hdr :: (rows ++ rest)) rows = hdr :: (rows ++ rest) := by
  have hB : ((((hdr :: (rows ++ rest)).drop 1).take rows.length).filter
      (fun r => 1 < r.length)).map rowKey = rows.map rowKey := by
    have h1 : (hdr :: (rows ++ rest)).drop 1 = rows ++ rest := rfl
    rw [h1, List.take_left, List.filter_eq_self.mpr (fun a ha => decide_eq_true (hw a ha))]
  unfold syncScanner
  rw [if_neg (by rw [hB]; exact fun h => h rfl)]

/-- C2: a Scanner-kind sync is idempotent — running `sync_data`'s
scanner branch twice with the same incoming rows leaves the sheet
exactly as after the first run, and in particular the second run
inserts nothing because the incoming key column equals, as an ordered
sequence, the key column read back from the top persisted rows.  The
width hypothesis says every incoming row has a key cell to the right of
the timestamp (always true for `process_data` output). -/
theorem scanner_sync_idempotent (vals : Sheet) (df : Table)
    (hkind : isHistoryTable df.cols = false)
    (hw : ∀ r ∈ df.rows, 1 < r.length) :
    syncTable (syncTable vals df) df = syncTable vals df
    ∧ df.rows.map rowKey =
        ((((writeHeader (syncTable vals df) df.cols).drop 1).take df.rows.length).filter
          (fun r => 1 < r.length)).map rowKey := by
  have hkind' : ¬(isHistoryTable df.cols = true) := by simp [hkind]
  have hsync : ∀ w : Sheet, syncTable w df = syncScanner (df.cols :: w.drop 1) df.rows := by
    intro w
    simp only [syncTable, writeHeader]
    rw [if_neg hkind']
  by_cases hcond : df.rows.map rowKey ≠
      ((((df.cols :: vals.drop 1).drop 1).take df.rows.length).filter
        (fun r => 1 < r.length)).map rowKey
  · have hs1 : syncTable vals df = df.cols :: (df.rows ++ vals.drop 1) := by
      rw [hsync vals]
      unfold syncScanner
      rw [if_pos hcond]
      simp
    constructor
    · rw [hs1, hsync (df.cols :: (df.rows ++ vals.drop 1))]
      exact syncScanner_inserted_noop df.rows hw df.cols (vals.drop 1)
    · rw [hs1]
      have h1 : (writeHeader (df.cols :: (df.rows ++ vals.drop 1)) df.cols).drop 1
          = df.rows ++ vals.drop 1 := rfl
      rw [h1, List.take_left,
        List.filter_eq_self.mpr (fun a ha => decide_eq_true (hw a ha))]
  · have hs1 : syncTable vals df = df.cols :: vals.drop 1 := by
      rw [hsync vals]
      unfold syncScanner
      rw [if_neg hcond]
    have heq : df.rows.map rowKey =
        ((((df.cols :: vals.drop 1).drop 1).take df.rows.length).filter
          (fun r => 1 < r.length)).map rowKey := by
      by_contra hne
      exact hcond hne
    constructor
    · rw [hs1, hsync (df.cols :: vals.drop 1)]
      unfold syncScanner
      rw [if_neg (by simpa using hcond)]
      rfl
    · rw [hs1]
      exact heq

/-- Witness for C2: a two-row scanner table synced into a header-only
sheet; applying the theorem at this input shows the second sync is a
no-op. -/
theorem scanner_sync_idempotent_witness :
    syncTable (syncTable [["h1".data, "h2".data, "h3".data]]
        ⟨["Scraped_At_IST".data, "Symbol".data, "Val".data],
         [["t".data, "TCS".data, "1".data], ["t".data, "INFY".data, "2".data]]⟩)
      ⟨["Scraped_At_IST".data, "Symbol".data, "Val".data],
       [["t".data, "TCS".data, "1".data], ["t".data, "INFY".data, "2".data]]⟩
      = syncTable [["h1".data, "h2".data, "h3".data]]
      ⟨["Scraped_At_IST".data, "Symbol".data, "Val".data],
       [["t".data, "TCS".data, "1".data], ["t".data, "INFY".data, "2".data]]⟩
    ∧ (⟨["Scraped_At_IST".data, "Symbol".data, "Val".data],
        [["t".data, "TCS".data, "1".data], ["t".data, "INFY".data, "2".data]]⟩ : Table).rows.map rowKey =
        ((((writeHeader (syncTable [["h1".data, "h2".data, "h3".data]]
            ⟨["Scraped_At_IST".data, "Symbol".data, "Val".data],
             [["t".data, "TCS".data, "1".data], ["t".data, "INFY".data, "2".data]]⟩)
            (⟨["Scraped_At_IST".data, "Symbol".data, "Val".data],
              [["t".data, "TCS".data, "1".data], ["t".data, "INFY".data, "2".data]]⟩ : Table).cols).drop 1).take
          (⟨["Scraped_At_IST".data, "Symbol".data, "Val".data],
            [["t".data, "TCS".data, "1".data], ["t".data, "INFY".data, "2".data]]⟩ : Table).rows.length).filter
            (fun r => 1 < r.length)).map rowKey :=
  scanner_sync_idempotent [["h1".data, "h2".data, "h3".data]]
    ⟨["Scraped_At_IST".data, "Symbol".data, "Val".data],
     [["t".data, "TCS".data, "1".data], ["t".data, "INFY".data, "2".data]]⟩
    (by decide) (by decide)

/-! ### Claim C9 — per-table failure isolation -/

/-- The `sync_data` loop over the run's tables, each item carrying the
dataframe, its worksheet's current contents, and whether the store
mutation call for that worksheet raises (`gspread` error).  The source
wraps only the worksheet *lookup* in `try/except`; mutation calls
(`ws.update`, `ws.insert_rows`) are unguarded, so an exception
propagates out of the loop: earlier worksheets keep their results,
the failing and all later worksheets stay untouched, and the run ends
with the error flag instead of a per-table report. -/
def runAll : List (Table × Sheet × Bool) → List Sheet × Bool
  | [] => ([], false)
  | (df, v, failStore) :: rest =>
    if failStore then (v :: rest.map (fun it => it.2.1), true)
    else ((syncTable v df) :: (runAll rest).1, (runAll rest).2)

/-- C9 counterexample: a store failure on the first table prevents the
second table from completing its own sync.  With table 1 failing, the
run aborts: table 2's sheet is returned untouched, although its sync
would have changed it (the scanner comparison differs). -/
theorem sync_failure_not_isolated :
    runAll [(⟨["c1".data, "Date".data], [["x".data, "1 Jan".data]]⟩,
              [["c1".data, "Date".data]], true),
            (⟨["Scraped_At_IST".data, "Symbol".data, "Val".data],
              [["t".data, "TCS".data, "9".data]]⟩,
              [["h1".data, "h2".data, "h3".data]], false)]
      = ([[["c1".data, "Date".data]], [["h1".data, "h2".data, "h3".data]]], true)
    ∧ syncTable [["h1".data, "h2".data, "h3".data]]
        ⟨["Scraped_At_IST".data, "Symbol".data, "Val".data],
         [["t".data, "TCS".data, "9".data]]⟩
      ≠ [["h1".data, "h2".data, "h3".data]] := by
  refine ⟨by decide, by decide⟩

/-- C9 (amended): a store-mutation failure while syncing one table
aborts the rest of the run — tables before the failing one keep their
completed syncs, the failing table's sheet and every later table's
sheet are left untouched, and the run ends in the error state (no
per-table outcome report exists). -/
theorem sync_failure_aborts_run (pre : List (Table × Sheet × Bool)) (df : Table)
    (v : Sheet) (post : List (Table × Sheet × Bool))
    (hpre : ∀ it ∈ pre, it.2.2 = false) :
    runAll (pre ++ (df, v, true) :: post)
      = (pre.map (fun it => syncTable it.2.1 it.1) ++ v :: post.map (fun it => it.2.1),
         true) := by
  induction pre with
  | nil => simp [runAll]
  | cons it pre' ih =>
    obtain ⟨df', v', b⟩ := it
    have hb : b = false := hpre ⟨df', v', b⟩ (by simp)
    subst hb
    have hpre' : ∀ x ∈ pre', x.2.2 = false := fun x hx => hpre x (List.mem_cons_of_mem _ hx)
    simp [runAll, ih hpre']

/-- Witness for the amended C9: with no preceding tables, a failing
first table leaves the one remaining table's sheet untouched. -/
theorem sync_failure_aborts_run_witness :
    runAll ([] ++ ((⟨["c1".data, "Date".data], [["x".data, "1 Jan".data]]⟩ : Table),
        ([["c1".data, "Date".data]] : Sheet), true)
        :: [((⟨["Scraped_At_IST".data, "Symbol".data, "Val".data],
              [["t".data, "TCS".data, "9".data]]⟩ : Table),
             ([["h1".data, "h2".data, "h3".data]] : Sheet), false)])
      = (([] : List (Table × Sheet × Bool)).map (fun it => syncTable it.2.1 it.1)
          ++ ([["c1".data, "Date".data]] : Sheet)
            :: [((⟨["Scraped_At_IST".data, "Symbol".data, "Val".data],
                  [["t".data, "TCS".data, "9".data]]⟩ : Table),
                 ([["h1".data, "h2".data, "h3".data]] : Sheet), false)].map (fun it => it.2.1),
         true) :=
  sync_failure_aborts_run []
    (⟨["c1".data, "Date".data], [["x".data, "1 Jan".data]]⟩ : Table)
    ([["c1".data, "Date".data]] : Sheet)
    [((⟨["Scraped_At_IST".data, "Symbol".data, "Val".data],
        [["t".data, "TCS".data, "9".data]]⟩ : Table),
      ([["h1".data, "h2".data, "h3".data]] : Sheet), false)]
    (by simp)
